import Mathlib

/-!
Formal model of the EPFO bot backend chat pipeline.

This file gives a shallow embedding, in Lean, of the core logic of the
`epfo-bot-backend` service and proves properties of it:

* `app/services/llm_service.py` — the `_clean_response` post-processing of the
  raw model completion (whitespace trimming, cutting at the last `"Answer:"`
  marker, heuristic truncation repair);
* `app/services/rag_service.py` — prompt assembly from retrieved passages
  (`get_final_prompt_for_llm`, `_build_prompt`, `_create_fallback_prompt`);
* `app/services/supabase_service.py` — the interaction-append payload
  (`save_chat_to_db`) and the statistics aggregation (`get_chat_statistics`);
* `app/main.py` — the `chat` orchestrator and its partial-failure policy.

Python strings are modelled as `List Char`, or as Lean `String` where only
concatenation matters.  Network calls and other effects are made explicit:
each fallible stage of the orchestrator is a parameter carrying its outcome
(`Except`), and "current time" is an explicit argument.
-/

/-! ## Python string primitives

`str.strip`, `str.split(sep)` (for a non-empty separator) and `sep.join`
modelled over `List Char`.  These follow Python semantics: `strip` removes
ASCII whitespace from both ends, and `split` cuts at leftmost,
non-overlapping occurrences of the separator.
-/

/-- Characters removed by Python `str.strip()`:
space, tab, newline, carriage return, vertical tab, form feed. -/
def pyIsSpace (c : Char) : Bool :=
  c == ' ' || c == '\t' || c == '\n' || c == '\r' || c == '\x0b' || c == '\x0c'

/-- Python `str.lstrip()`. -/
def pyLStrip (s : List Char) : List Char := s.dropWhile pyIsSpace

/-- Python `str.rstrip()`. -/
def pyRStrip (s : List Char) : List Char := (s.reverse.dropWhile pyIsSpace).reverse

/-- Python `str.strip()`. -/
def pyStrip (s : List Char) : List Char := pyRStrip (pyLStrip s)

/-- Python `str.split(sep)` for the non-empty separator `c0 :: ct`,
fuelled so that the recursion is structural (the fuel is an upper bound on
the length of the input; `splitSep` below instantiates it). -/
def splitSepF (c0 : Char) (ct : List Char) : Nat → List Char → List (List Char)
  | _, [] => [[]]
  | 0, s => [s]
  | fuel+1, c :: rest =>
    if (c0 :: ct) <+: (c :: rest) then
      [] :: splitSepF c0 ct fuel (rest.drop ct.length)
    else
      match splitSepF c0 ct fuel rest with
      | [] => [[c]]
      | p :: ps => (c :: p) :: ps

/-- Python `str.split(sep)` for the non-empty separator `c0 :: ct`. -/
def splitSep (c0 : Char) (ct : List Char) (s : List Char) : List (List Char) :=
  splitSepF c0 ct s.length s

/-- Python `sep.join(pieces)`. -/
def joinWith (sep : List Char) : List (List Char) → List Char
  | [] => []
  | [x] => x
  | x :: y :: ys => x ++ sep ++ joinWith sep (y :: ys)

/-- A string with no leading and no trailing Python whitespace. -/
def Stripped (s : List Char) : Prop :=
  (∀ c, s.head? = some c → pyIsSpace c = false) ∧
  (∀ c, s.getLast? = some c → pyIsSpace c = false)

/-! ## `LLMService._clean_response` (app/services/llm_service.py, lines 273-295)

```python
cleaned = response.strip()
if "Answer:" in cleaned:
    cleaned = cleaned.split("Answer:")[-1].strip()
if cleaned and not cleaned.endswith(('.', '!', '?')):
    sentences = cleaned.split('. ')
    if len(sentences) > 1:
        cleaned = '. '.join(sentences[:-1]) + '.'
return cleaned
```
-/

/-- The characters of the `"Answer:"` marker after its head `'A'`. -/
def ansTail : List Char := ['n', 's', 'w', 'e', 'r', ':']

/-- The characters of the `"Answer:"` marker. -/
def ansChars : List Char := 'A' :: ansTail

/-- Python `cleaned.endswith(('.', '!', '?'))`. -/
def endsPunct (s : List Char) : Bool :=
  match s.getLast? with
  | some c => c == '.' || c == '!' || c == '?'
  | none => false

/-- The `"Answer:"` block of `_clean_response`:
`if "Answer:" in cleaned: cleaned = cleaned.split("Answer:")[-1].strip()`. -/
def answerCut (cleaned : List Char) : List Char :=
  if ansChars <:+: cleaned then
    pyStrip ((splitSep 'A' ansTail cleaned).getLastD [])
  else cleaned

/-- The truncation-repair block of `_clean_response`:
`if cleaned and not cleaned.endswith(('.', '!', '?')): ...`. -/
def truncRepair (cleaned : List Char) : List Char :=
  if cleaned ≠ [] ∧ endsPunct cleaned = false then
    if 1 < (splitSep '.' [' '] cleaned).length then
      joinWith ['.', ' '] (splitSep '.' [' '] cleaned).dropLast ++ ['.']
    else cleaned
  else cleaned

/-- `LLMService._clean_response`: strip, cut at the last `"Answer:"` marker,
then heuristically repair a truncated final sentence. -/
def cleanResponse (response : List Char) : List Char :=
  truncRepair (answerCut (pyStrip response))

/-! ## `RAGService` (app/services/rag_service.py)

`get_final_prompt_for_llm` is modelled from the point where the Pinecone
query has returned its matches: the embedding call and the index query are
external I/O, so their combined result is an explicit `matches` argument.
Only the metadata `"text"` field of a match is consulted by the code.
-/

/-- Python `sep.join(pieces)` over Lean strings. -/
def sjoin (sep : String) : List String → String
  | [] => ""
  | [x] => x
  | x :: y :: ys => x ++ sep ++ sjoin sep (y :: ys)

/-- One Pinecone match: `metadataText` is `match.get("metadata", {}).get("text")`,
`none` when the metadata lacks the `"text"` key. -/
structure PineconeMatch where
  metadataText : Option String
  deriving DecidableEq

/-- The truthiness filter `if match.get("metadata", {}).get("text"):` keeps
the text exactly when the field is present and non-empty (Python treats a
present-but-empty string as falsy). -/
def matchText (m : PineconeMatch) : Option String :=
  match m.metadataText with
  | some t => if t = "" then none else some t
  | none => none

/-- The fixed preamble of `RAGService._build_prompt` (everything before the
interpolated `{context}`). -/
def promptPreamble : String :=
  "You are Providentia, an expert EPFO (Employees' Provident Fund Organisation) assistant. Your role is to provide accurate, helpful, and comprehensive answers about EPF-related matters based on the provided context.\n\nInstructions:\n1. Answer ONLY based on the provided context\n2. Be precise, concise, and professional\n3. If the context doesn't contain enough information, clearly state what information is missing\n4. Always cite relevant sections or rules when possible\n5. Provide step-by-step guidance for complex procedures\n6. Use simple language that's easy to understand\n\nContext:\n"

/-- The fixed text of `_build_prompt` between `{context}` and `{user_query}`. -/
def promptQuestionMid : String := "\n\nQuestion: "

/-- The fixed generation cue ending `_build_prompt` and `_create_fallback_prompt`. -/
def promptAnswerCue : String := "\n\nAnswer:"

/-- `RAGService._build_prompt(user_query, context)`. -/
def build_prompt (user_query context : String) : String :=
  promptPreamble ++ context ++ promptQuestionMid ++ user_query ++ promptAnswerCue

/-- The fixed text of `_create_fallback_prompt` before `{user_query}`
(note the trailing space after "assistant." present in the source). -/
def fallbackPre : String :=
  "You are Providentia, an expert EPFO (Employees' Provident Fund Organisation) assistant. \n\nQuestion: "

/-- The fixed text of `_create_fallback_prompt` after `{user_query}`. -/
def fallbackPost : String :=
  "\n\nPlease provide a helpful response about EPF-related matters. If you need more specific information to give a complete answer, please let the user know what additional details would be helpful.\n\nAnswer:"

/-- `RAGService._create_fallback_prompt(user_query)`. -/
def create_fallback_prompt (user_query : String) : String :=
  fallbackPre ++ user_query ++ fallbackPost

/-- `RAGService.get_final_prompt_for_llm` after the Pinecone query:
filter matches to those with a truthy metadata text, fall back when none
remain, otherwise join the context with `"\n\n---\n\n"`, the source context
with `"\n\n"`, and build the grounded prompt.  Returns
`(final_prompt, source_context)`. -/
def get_final_prompt_for_llm (user_query : String) (matchList : List PineconeMatch) :
    String × String :=
  if matchList = [] then
    (create_fallback_prompt user_query, "")
  else if matchList.filterMap matchText = [] then
    (create_fallback_prompt user_query, "")
  else
    (build_prompt user_query (sjoin "\n\n---\n\n" (matchList.filterMap matchText)),
     sjoin "\n\n" (matchList.filterMap matchText))

/-! ## `SupabaseService` (app/services/supabase_service.py) -/

/-- The insert payload built by `save_chat_to_db` (the `chat_data` dict).
`created_at` is an `Option` so that "the client does not send a timestamp
and the store assigns one" is expressible as `none`; the code always sends
`some` of the current UTC time. -/
structure ChatData where
  user_id : String
  user_message : String
  bot_response : String
  source_context : Option String
  created_at : Option String
  deriving DecidableEq

/-- `SupabaseService.save_chat_to_db` (lines 59-101): builds the row
inserted into `chat_history`.  The call `datetime.utcnow().isoformat()` is
made explicit as the `nowIso` argument. -/
def save_chat_to_db (user_id user_query bot_response : String)
    (context : Option String) (nowIso : String) : ChatData :=
  { user_id := user_id
    user_message := user_query
    bot_response := bot_response
    source_context := context
    created_at := some nowIso }

/-- One stored `chat_history` row as consumed by `get_chat_statistics`.
`created_at` is the stored UTC timestamp in seconds since the epoch (the
code parses the stored ISO string with `datetime.fromisoformat`; parsing is
a thin wrapper, so timestamps are modelled numerically). -/
structure ChatRecord where
  user_id : String
  bot_response : String
  created_at : Nat
  deriving DecidableEq

/-- The dict returned by `get_chat_statistics`. -/
structure ChatStats where
  total_chats : Nat
  total_users : Nat
  recent_chats_24h : Nat
  average_response_length : ℚ
  deriving DecidableEq

/-- `datetime.utcnow().replace(hour=0, minute=0, second=0, microsecond=0)`:
UTC midnight of the day containing `now`, in seconds since the epoch. -/
def midnightOf (now : Nat) : Nat := now - now % 86400

/-- `SupabaseService.get_chat_statistics` (lines 142-189) after the select
has returned `chats` (already scoped to one user when a user id was given,
as the code does in the query); `now` is `datetime.utcnow()` in seconds.
The "recent" filter keeps rows with `created_at` strictly after UTC
midnight of the current day; the average guards against division by zero. -/
def get_chat_statistics (chats : List ChatRecord) (now : Nat) : ChatStats :=
  { total_chats := chats.length
    total_users := if chats = [] then 0 else ((chats.map (fun c => c.user_id)).dedup).length
    recent_chats_24h := (chats.filter (fun c => midnightOf now < c.created_at)).length
    average_response_length :=
      if 0 < chats.length then
        ((chats.map (fun c => (c.bot_response.length : ℚ))).sum) / (chats.length : ℚ)
      else 0 }

/-- Modelled from the spec wording, for comparison in C9: membership of a
stored timestamp in "the interval from 00:00 UTC of the current date to
now". -/
def inCurrentDaySpec (createdAt now : Nat) : Prop :=
  86400 * (now / 86400) ≤ createdAt ∧ createdAt ≤ now

instance (createdAt now : Nat) : Decidable (inCurrentDaySpec createdAt now) :=
  inferInstanceAs (Decidable (_ ∧ _))

/-! ## The `chat` orchestrator (app/main.py, `chat`, lines 193-273) -/

/-- Arguments of one `save_chat_to_db` invocation made by `chat`. -/
structure SaveCall where
  user_id : String
  user_query : String
  bot_response : String
  context : String
  deriving DecidableEq

/-- The response model returned by the chat endpoint
(`api_models.ChatResponse`). -/
structure ChatResponse where
  answer : String
  source_context : String
  success : Bool
  error_message : Option String
  deriving DecidableEq

/-- The fixed apology substituted by `chat` when the LLM stage raises. -/
def techDifficulties : String :=
  "I apologize, but I'm currently experiencing technical difficulties. Please try again later."

/-- Everything observable about one chat turn: the prompt passed to the
generation client, the persistence calls attempted (their arguments), the
outcome of the persistence attempt (ignored by the handler), and the
response returned to the caller. -/
structure ChatOutcome where
  llmPrompt : String
  saveCalls : List SaveCall
  persistResult : Except String Unit
  response : ChatResponse

/-- Step 1 of `chat`: `rag_service.get_final_prompt_for_llm` under
`try/except` — on success use its `(final_prompt, source_context)`, on any
exception fall back to the raw question with empty context. -/
def resolvePrompt (user_query : String) (ragResult : Except String (String × String)) :
    String × String :=
  match ragResult with
  | .ok pc => pc
  | .error _ => (user_query, "")

/-- Step 2 of `chat`: the generation call under `try/except` — substitute
the fixed apology on any exception and continue. -/
def chatBotResponse (llm : String → Except String String) (final_prompt : String) : String :=
  match llm final_prompt with
  | .ok r => r
  | .error _ => techDifficulties

/-- The `chat` handler of app/main.py with each fallible collaborator made
explicit: `ragResult` is the outcome of the RAG stage, `llm` maps the
prompt actually sent to the generation outcome, and `save` is the
persistence attempt, whose result is recorded but never consulted (the code
catches and logs it).  The outer `except` of the handler is reachable only
through an unanticipated exception inside the three guarded blocks and has
no counterpart here, because every modelled stage outcome is explicit. -/
def chat (user_query user_id : String)
    (ragResult : Except String (String × String))
    (llm : String → Except String String)
    (save : SaveCall → Except String Unit) : ChatOutcome :=
  { llmPrompt := (resolvePrompt user_query ragResult).1
    saveCalls := [{ user_id := user_id, user_query := user_query,
                    bot_response := chatBotResponse llm (resolvePrompt user_query ragResult).1,
                    context := (resolvePrompt user_query ragResult).2 }]
    persistResult := save { user_id := user_id, user_query := user_query,
                            bot_response :=
                              chatBotResponse llm (resolvePrompt user_query ragResult).1,
                            context := (resolvePrompt user_query ragResult).2 }
    response := { answer := chatBotResponse llm (resolvePrompt user_query ragResult).1,
                  source_context := (resolvePrompt user_query ragResult).2,
                  success := true, error_message := none } }

/-! ## Lemmas and claim theorems -/

theorem splitSepF_fuel (c0 : Char) (ct : List Char) :
    ∀ f g s, s.length ≤ f → s.length ≤ g →
      splitSepF c0 ct f s = splitSepF c0 ct g s := by
  intro f
  induction f with
  | zero =>
    intro g s hf _
    cases s with
    | nil => cases g <;> rfl
    | cons c rest => simp at hf
  | succ f ih =>
    intro g s hf hg
    cases s with
    | nil => cases g <;> rfl
    | cons c rest =>
      cases g with
      | zero => simp at hg
      | succ g =>
        simp only [List.length_cons, Nat.succ_le_succ_iff] at hf hg
        simp only [splitSepF]
        rw [ih g (rest.drop ct.length)
              (le_trans (by simp) hf) (le_trans (by simp) hg),
            ih g rest hf hg]

theorem splitSep_nil (c0 : Char) (ct : List Char) : splitSep c0 ct [] = [[]] := rfl

theorem splitSep_cons (c0 : Char) (ct : List Char) (c : Char) (rest : List Char) :
    splitSep c0 ct (c :: rest) =
      if (c0 :: ct) <+: (c :: rest) then
        [] :: splitSep c0 ct (rest.drop ct.length)
      else
        match splitSep c0 ct rest with
        | [] => [[c]]
        | p :: ps => (c :: p) :: ps := by
  show splitSepF c0 ct (rest.length + 1) (c :: rest) = _
  simp only [splitSepF]
  rw [splitSepF_fuel c0 ct rest.length (rest.drop ct.length).length (rest.drop ct.length)
        (by simp) le_rfl,
      splitSepF_fuel c0 ct rest.length rest.length rest le_rfl le_rfl]
  rfl

theorem splitSepF_ne_nil (c0 : Char) (ct : List Char) (f : Nat) (s : List Char) :
    splitSepF c0 ct f s ≠ [] := by
  match f, s with
  | _, [] => simp [splitSepF]
  | 0, c :: rest => simp [splitSepF]
  | f+1, c :: rest =>
    simp only [splitSepF]
    split
    · simp
    · split <;> simp

theorem splitSep_ne_nil (c0 : Char) (ct : List Char) (s : List Char) :
    splitSep c0 ct s ≠ [] :=
  splitSepF_ne_nil c0 ct s.length s

theorem infixConsElim {sep : List Char} {c : Char} {l : List Char}
    (h : sep <:+: c :: l) : sep <+: c :: l ∨ sep <:+: l := by
  obtain ⟨u, v, huv⟩ := h
  cases u with
  | nil => exact Or.inl ⟨v, by simpa using huv⟩
  | cons a u' =>
    refine Or.inr ⟨u', v, ?_⟩
    rw [List.cons_append] at huv
    injection huv with _ h2

theorem infixAppL {l a b : List Char} (h : l <:+: b) : l <:+: a ++ b := by
  obtain ⟨u, v, huv⟩ := h
  exact ⟨a ++ u, v, by rw [← huv]; simp⟩

theorem infixAppR {l a b : List Char} (h : l <:+: a) : l <:+: a ++ b := by
  obtain ⟨u, v, huv⟩ := h
  exact ⟨u, v ++ b, by rw [← huv]; simp⟩

theorem getLastD_ne_nil {α : Type} {l : List α} (h : l ≠ []) (a b : α) :
    l.getLastD a = l.getLastD b := by
  cases l with
  | nil => exact absurd rfl h
  | cons x xs => rw [List.getLastD_cons, List.getLastD_cons]

theorem joinWith_splitSepF (c0 : Char) (ct : List Char) :
    ∀ f s, s.length ≤ f → joinWith (c0 :: ct) (splitSepF c0 ct f s) = s := by
  intro f
  induction f with
  | zero =>
    intro s hf
    cases s with
    | nil => rfl
    | cons c rest => simp at hf
  | succ f ih =>
    intro s hf
    cases s with
    | nil => rfl
    | cons c rest =>
      simp only [List.length_cons, Nat.succ_le_succ_iff] at hf
      simp only [splitSepF]
      split
      · rename_i h
        obtain ⟨t, ht⟩ := h
        rw [List.cons_append] at ht
        have hc : c0 = c := (List.cons.inj ht).1
        have hr : ct ++ t = rest := (List.cons.inj ht).2
        subst hc; subst hr
        rw [List.drop_left]
        have hlen : t.length ≤ f := by
          have := List.length_append ct t
          omega
        cases hsp : splitSepF c0 ct f t with
        | nil => exact absurd hsp (splitSepF_ne_nil c0 ct f t)
        | cons p ps =>
          have hjoin : joinWith (c0 :: ct) (p :: ps) = t := by
            rw [← hsp]; exact ih t hlen
          simp [joinWith, hjoin]
      · cases hsp : splitSepF c0 ct f rest with
        | nil => exact absurd hsp (splitSepF_ne_nil c0 ct f rest)
        | cons p ps =>
          have hjoin : joinWith (c0 :: ct) (p :: ps) = rest := by
            rw [← hsp]; exact ih rest hf
          cases ps with
          | nil => simpa [joinWith] using hjoin
          | cons q qs =>
            simp only [joinWith] at hjoin ⊢
            rw [← hjoin]
            simp

theorem joinWith_splitSep (c0 : Char) (ct : List Char) (s : List Char) :
    joinWith (c0 :: ct) (splitSep c0 ct s) = s :=
  joinWith_splitSepF c0 ct s.length s le_rfl

theorem splitSepF_nil_eq (c0 : Char) (ct : List Char) (f : Nat) :
    splitSepF c0 ct f [] = [[]] := by
  cases f <;> rfl

theorem splitSepF_getLastD_free (c0 : Char) (ct : List Char) :
    ∀ f s, s.length ≤ f → ¬ (c0 :: ct) <:+: (splitSepF c0 ct f s).getLastD [] := by
  intro f
  induction f with
  | zero =>
    intro s hf
    cases s with
    | nil =>
      intro h
      have h2 := h.length_le
      simp [splitSepF_nil_eq] at h2
    | cons c rest => simp at hf
  | succ f ih =>
    intro s hf
    cases s with
    | nil =>
      intro h
      have h2 := h.length_le
      simp [splitSepF_nil_eq] at h2
    | cons c rest =>
      simp only [List.length_cons, Nat.succ_le_succ_iff] at hf
      simp only [splitSepF]
      split
      · rename_i h
        have hlen : (rest.drop ct.length).length ≤ f := by
          have := List.length_drop ct.length rest
          omega
        rw [List.getLastD_cons]
        exact ih (rest.drop ct.length) hlen
      · rename_i hnp
        cases hsp : splitSepF c0 ct f rest with
        | nil => exact absurd hsp (splitSepF_ne_nil c0 ct f rest)
        | cons p ps =>
          have ihr := ih rest hf
          rw [hsp] at ihr
          cases ps with
          | nil =>
            rw [List.getLastD_cons, List.getLastD_nil] at ihr ⊢
            have hpr : p = rest := by
              have hj := joinWith_splitSepF c0 ct f rest hf
              rw [hsp] at hj
              simpa [joinWith] using hj
            intro hcon
            rcases infixConsElim hcon with hp | hi
            · rw [hpr] at hp; exact hnp hp
            · exact ihr hi
          | cons q qs =>
            rw [List.getLastD_cons, getLastD_ne_nil (by simp) (c :: p) []]
            rw [List.getLastD_cons, getLastD_ne_nil (by simp) p []] at ihr
            exact ihr

theorem splitSep_getLastD_free (c0 : Char) (ct : List Char) (s : List Char) :
    ¬ (c0 :: ct) <:+: (splitSep c0 ct s).getLastD [] :=
  splitSepF_getLastD_free c0 ct s.length s le_rfl

theorem joinWith_dropLast_aux (sep : List Char) :
    ∀ l x, l ≠ [] →
      joinWith sep ((x :: l).dropLast) ++ sep ++ l.getLastD [] = joinWith sep (x :: l) := by
  intro l
  induction l with
  | nil => intro x h; exact absurd rfl h
  | cons y l' ih =>
    intro x _
    cases l' with
    | nil => simp [joinWith, List.getLastD_cons, List.getLastD_nil]
    | cons z ws =>
      have ihy : joinWith sep (y :: (z :: ws).dropLast) ++ sep ++ (z :: ws).getLastD []
          = joinWith sep (y :: z :: ws) := ih y (by simp)
      calc joinWith sep ((x :: y :: z :: ws).dropLast) ++ sep ++ (y :: z :: ws).getLastD []
          = (x ++ sep ++ joinWith sep (y :: (z :: ws).dropLast)) ++ sep
              ++ (z :: ws).getLastD [] := by
            rw [List.getLastD_cons, getLastD_ne_nil (by simp) y []]
            exact rfl
        _ = x ++ sep ++ (joinWith sep (y :: (z :: ws).dropLast) ++ sep
              ++ (z :: ws).getLastD []) := by simp [List.append_assoc]
        _ = x ++ sep ++ joinWith sep (y :: z :: ws) := by rw [ihy]
        _ = joinWith sep (x :: y :: z :: ws) := rfl

theorem joinWith_dropLast (sep : List Char) (l : List (List Char)) (h : 2 ≤ l.length) :
    joinWith sep l.dropLast ++ sep ++ l.getLastD [] = joinWith sep l := by
  cases l with
  | nil => simp at h
  | cons x l' =>
    have h' : l' ≠ [] := by
      intro he; rw [he] at h; simp at h
    rw [List.getLastD_cons, getLastD_ne_nil h' x []]
    exact joinWith_dropLast_aux sep l' x h'

theorem dropWhile_head_false {p : Char → Bool} :
    ∀ (l : List Char) c, (l.dropWhile p).head? = some c → p c = false := by
  intro l
  induction l with
  | nil => intro c h; simp at h
  | cons a rest ih =>
    intro c h
    rw [List.dropWhile_cons] at h
    split at h
    · exact ih c h
    · rename_i hp
      simp only [List.head?_cons, Option.some.injEq] at h
      subst h
      simpa using hp

theorem dropWhile_eq_self_of_head {p : Char → Bool} {l : List Char}
    (h : ∀ c, l.head? = some c → p c = false) : l.dropWhile p = l := by
  cases l with
  | nil => rfl
  | cons a rest =>
    rw [List.dropWhile_cons, h a rfl]
    simp

theorem head?_of_pref {a b : List Char} (h : a <+: b) (ha : a ≠ []) : a.head? = b.head? := by
  obtain ⟨t, rfl⟩ := h
  cases a with
  | nil => exact absurd rfl ha
  | cons x xs => rfl

theorem pyRStrip_pref (s : List Char) : pyRStrip s <+: s := by
  obtain ⟨u, hu⟩ := List.dropWhile_suffix (l := s.reverse) (p := pyIsSpace)
  refine ⟨u.reverse, ?_⟩
  rw [pyRStrip, ← List.reverse_append, hu, List.reverse_reverse]

theorem pyStrip_infix_self (s : List Char) : pyStrip s <:+: s := by
  obtain ⟨t, ht⟩ := pyRStrip_pref (pyLStrip s)
  obtain ⟨u, hu⟩ := List.dropWhile_suffix (p := pyIsSpace) (l := s)
  refine ⟨u, t, ?_⟩
  rw [List.append_assoc]
  show u ++ (pyRStrip (pyLStrip s) ++ t) = s
  rw [ht]
  exact hu

theorem stripped_pyStrip (s : List Char) : Stripped (pyStrip s) := by
  constructor
  · intro c hc
    have hne : pyStrip s ≠ [] := by
      intro he; rw [he] at hc; simp at hc
    have h2 : (pyStrip s).head? = (pyLStrip s).head? :=
      head?_of_pref (pyRStrip_pref (pyLStrip s)) hne
    rw [h2] at hc
    exact dropWhile_head_false s c hc
  · intro c hc
    have h2 : (pyStrip s).getLast? = ((pyLStrip s).reverse.dropWhile pyIsSpace).head? :=
      List.getLast?_reverse ((pyLStrip s).reverse.dropWhile pyIsSpace)
    rw [h2] at hc
    exact dropWhile_head_false (pyLStrip s).reverse c hc

theorem stripped_pyStrip_eq {s : List Char} (h : Stripped s) : pyStrip s = s := by
  have h1 : pyLStrip s = s := dropWhile_eq_self_of_head h.1
  rw [pyStrip, h1, pyRStrip, dropWhile_eq_self_of_head ?hh, List.reverse_reverse]
  case hh =>
    intro c hc
    apply h.2 c
    rw [← List.head?_reverse]
    exact hc

theorem prefInfix {a b : List Char} (h : a <+: b) : a <:+: b := by
  obtain ⟨t, ht⟩ := h
  exact ⟨[], t, by simpa using ht⟩

theorem infixSnoc {a l : List Char} {x : Char} (hne : a ≠ []) (hx : x ∉ a)
    (h : a <:+: l ++ [x]) : a <:+: l := by
  obtain ⟨u, v, huv⟩ := h
  rcases List.eq_nil_or_concat v with rfl | ⟨w, y, rfl⟩
  · exfalso
    rcases List.eq_nil_or_concat a with rfl | ⟨b, z, rfl⟩
    · exact hne rfl
    · have h1 : (u ++ b) ++ [z] = l ++ [x] := by
        rw [← huv]; simp
      have h2 : some z = some x := by
        rw [← List.getLast?_concat (u ++ b), ← List.getLast?_concat l, h1]
      have h3 : z = x := by injection h2
      subst h3
      exact hx (by simp)
  · refine ⟨u, w, ?_⟩
    have h1 : (u ++ a ++ w) ++ [y] = l ++ [x] := by
      rw [← huv]; simp
    have h2 := congrArg List.dropLast h1
    rwa [List.dropLast_concat, List.dropLast_concat] at h2

theorem ansFree_answerCut (t : List Char) : ¬ ansChars <:+: answerCut t := by
  unfold answerCut
  split
  · intro h
    exact splitSepF_getLastD_free 'A' ansTail t.length t le_rfl
      (h.trans (pyStrip_infix_self _))
  · rename_i hn
    exact hn

theorem stripped_answerCut {t : List Char} (h : Stripped t) : Stripped (answerCut t) := by
  unfold answerCut
  split
  · exact stripped_pyStrip _
  · exact h

theorem repairPref (t : List Char) (h2 : 2 ≤ (splitSep '.' [' '] t).length) :
    joinWith ['.', ' '] (splitSep '.' [' '] t).dropLast ++
      (['.', ' '] ++ (splitSep '.' [' '] t).getLastD []) = t := by
  have hd := joinWith_dropLast ['.', ' '] (splitSep '.' [' '] t) h2
  rw [joinWith_splitSep '.' [' '] t] at hd
  rw [← List.append_assoc]
  exact hd

theorem endsPunct_concat_dot (P : List Char) : endsPunct (P ++ ['.']) = true := by
  unfold endsPunct
  rw [List.getLast?_concat]
  rfl

theorem stripped_snoc_dot {t P : List Char} (hs : Stripped t) (hP : P <+: t) :
    Stripped (P ++ ['.']) := by
  constructor
  · intro c hc
    cases P with
    | nil =>
      have hcd : c = '.' := by
        simp only [List.nil_append, List.head?_cons, Option.some.injEq] at hc
        exact hc.symm
      subst hcd
      decide
    | cons a P' =>
      have hca : c = a := by
        simp only [List.cons_append, List.head?_cons, Option.some.injEq] at hc
        exact hc.symm
      subst hca
      have hhd : (c :: P').head? = t.head? := head?_of_pref hP (by simp)
      exact hs.1 c (by rw [← hhd]; rfl)
  · intro c hc
    rw [List.getLast?_concat] at hc
    have hcd : c = '.' := by
      injection hc with h
      exact h.symm
    subst hcd
    decide

theorem ansFree_snoc_dot {t P : List Char} (ha : ¬ ansChars <:+: t) (hP : P <+: t) :
    ¬ ansChars <:+: P ++ ['.'] := by
  intro h
  have h2 : ansChars <:+: P := infixSnoc (by simp [ansChars]) (by decide) h
  exact ha (h2.trans (prefInfix hP))

theorem cleanResponse_of_clean {t : List Char} (hs : Stripped t) (ha : ¬ ansChars <:+: t) :
    cleanResponse t = truncRepair t := by
  show truncRepair (answerCut (pyStrip t)) = truncRepair t
  rw [stripped_pyStrip_eq hs]
  unfold answerCut
  rw [if_neg ha]

theorem truncRepair_fixed {t : List Char} (hs : Stripped t) (ha : ¬ ansChars <:+: t) :
    cleanResponse (truncRepair t) = truncRepair t := by
  by_cases hcond : t ≠ [] ∧ endsPunct t = false
  · by_cases hlen : 1 < (splitSep '.' [' '] t).length
    · have htr : truncRepair t =
          joinWith ['.', ' '] (splitSep '.' [' '] t).dropLast ++ ['.'] := by
        unfold truncRepair
        rw [if_pos hcond, if_pos hlen]
      have hP : joinWith ['.', ' '] (splitSep '.' [' '] t).dropLast <+: t :=
        ⟨_, repairPref t (by omega)⟩
      have hstr : Stripped (joinWith ['.', ' '] (splitSep '.' [' '] t).dropLast ++ ['.']) :=
        stripped_snoc_dot hs hP
      have hansv : ¬ ansChars <:+:
          joinWith ['.', ' '] (splitSep '.' [' '] t).dropLast ++ ['.'] :=
        ansFree_snoc_dot ha hP
      rw [htr, cleanResponse_of_clean hstr hansv]
      unfold truncRepair
      rw [if_neg]
      rintro ⟨-, h2⟩
      rw [endsPunct_concat_dot] at h2
      simp at h2
    · have htr : truncRepair t = t := by
        unfold truncRepair
        rw [if_pos hcond, if_neg hlen]
      rw [htr, cleanResponse_of_clean hs ha, htr]
  · have htr : truncRepair t = t := by
      unfold truncRepair
      rw [if_neg hcond]
    rw [htr, cleanResponse_of_clean hs ha, htr]

theorem ansFree_truncRepair {t : List Char} (ha : ¬ ansChars <:+: t) :
    ¬ ansChars <:+: truncRepair t := by
  unfold truncRepair
  split
  · split
    · rename_i hcond hlen
      exact ansFree_snoc_dot ha ⟨_, repairPref t (by omega)⟩
    · exact ha
  · exact ha

/-- C7: the response post-processing `_clean_response` is idempotent —
for every string `s`, `clean(clean(s)) = clean(s)`, where `clean` is the
composition of whitespace trimming, keeping only the content after the last
`"Answer:"` marker, and the truncation-repair step. -/
theorem clean_response_idempotent (s : List Char) :
    cleanResponse (cleanResponse s) = cleanResponse s :=
  truncRepair_fixed (stripped_answerCut (stripped_pyStrip s)) (ansFree_answerCut (pyStrip s))

/-- C10: for every input string `s` the cleaned response contains no
occurrence of the substring `"Answer:"`: only the content after the last
occurrence is kept, and the later steps never reintroduce the marker, so the
prompt's generation cue cannot leak into the user-visible answer. -/
theorem clean_response_no_marker_leak (s : List Char) :
    decide (ansChars <:+: cleanResponse s) = false := by
  rw [decide_eq_false_iff_not]
  exact ansFree_truncRepair (ansFree_answerCut (pyStrip s))

/-- C6, counterexample: cleaning `"Fact one. Fact two. Fact thr"` yields
`"Fact one. Fact two."`, which does NOT end with `"Fact one."` — the claim
names the wrong surviving sentence. -/
theorem clean_truncated_counterexample :
    cleanResponse ("Fact one. Fact two. Fact thr".data) = ("Fact one. Fact two.".data) ∧
    decide (("Fact one.".data) <:+ cleanResponse ("Fact one. Fact two. Fact thr".data))
      = false := by
  constructor
  · decide
  · decide

/-- C6, amended: cleaning `"Fact one. Fact two. Fact thr"` (no terminal
punctuation, more than one sentence when split on `". "`) drops the
incomplete trailing fragment `"Fact thr"`; the output is
`"Fact one. Fact two."`, which ends with `"Fact two."`. -/
theorem clean_truncated_repair :
    cleanResponse ("Fact one. Fact two. Fact thr".data) = ("Fact one. Fact two.".data) ∧
    ("Fact two.".data) <:+ cleanResponse ("Fact one. Fact two. Fact thr".data) := by
  constructor
  · decide
  · decide

theorem infixRfl (l : List Char) : l <:+: l := ⟨[], [], by simp⟩

theorem sjoin_contains_mem (sep : String) :
    ∀ (l : List String) (t : String), t ∈ l → t.data <:+: (sjoin sep l).data := by
  intro l
  induction l with
  | nil => intro t ht; simp at ht
  | cons x ys ih =>
    intro t ht
    cases ys with
    | nil =>
      have hx : t = x := by simpa using ht
      subst hx
      exact infixRfl t.data
    | cons y zs =>
      have hdata : (sjoin sep (x :: y :: zs)).data
          = (x.data ++ sep.data) ++ (sjoin sep (y :: zs)).data := by
        show ((x ++ sep ++ sjoin sep (y :: zs))).data = _
        rw [String.data_append, String.data_append]
      rcases List.mem_cons.mp ht with rfl | hmem
      · rw [hdata]
        exact infixAppR (infixAppR (infixRfl t.data))
      · rw [hdata]
        exact infixAppL (ih t hmem)

theorem filterMap_texts (texts : List String) (hall : ∀ t ∈ texts, t ≠ "") :
    (texts.map (fun t => PineconeMatch.mk (some t))).filterMap matchText = texts := by
  induction texts with
  | nil => rfl
  | cons x ys ih =>
    have hx : x ≠ "" := hall x (by simp)
    rw [List.map_cons, List.filterMap_cons]
    simp only [matchText, if_neg hx]
    rw [ih (fun t ht => hall t (List.mem_cons_of_mem _ ht))]

theorem infix_build_prompt {t : List Char} (user_query ctx : String)
    (h : t <:+: ctx.data) : t <:+: (build_prompt user_query ctx).data := by
  unfold build_prompt
  rw [String.data_append, String.data_append, String.data_append, String.data_append]
  exact infixAppR (infixAppR (infixAppR (infixAppL h)))

/-- C4: for every non-empty list of retrieved passages whose metadata text
fields are non-empty, the returned `source_context` equals the passage texts
joined in input order by the separator `"\n\n"` (nothing but newline
characters stands between consecutive passages), and the returned final
prompt contains every passage text verbatim. -/
theorem grounded_prompt_properties (user_query : String) (texts : List String)
    (hne : texts ≠ []) (hall : ∀ t ∈ texts, t ≠ "") :
    (get_final_prompt_for_llm user_query
        (texts.map (fun t => PineconeMatch.mk (some t)))).2 = sjoin "\n\n" texts ∧
    ∀ t ∈ texts,
      t.data <:+: (get_final_prompt_for_llm user_query
        (texts.map (fun t => PineconeMatch.mk (some t)))).1.data := by
  have hm := filterMap_texts texts hall
  have hmne : texts.map (fun t => PineconeMatch.mk (some t)) ≠ [] := by
    simpa using hne
  unfold get_final_prompt_for_llm
  rw [hm, if_neg hmne, if_neg hne]
  constructor
  · rfl
  · intro t ht
    exact infix_build_prompt user_query _ (sjoin_contains_mem "\n\n---\n\n" texts t ht)

/-- C4, witness at a concrete input: two passages `"p1"`, `"p2"`. -/
theorem grounded_prompt_properties_witness :
    (get_final_prompt_for_llm "What is EPF?"
        (["p1", "p2"].map (fun t => PineconeMatch.mk (some t)))).2
      = sjoin "\n\n" ["p1", "p2"] ∧
    ∀ t ∈ ["p1", "p2"],
      t.data <:+: (get_final_prompt_for_llm "What is EPF?"
        (["p1", "p2"].map (fun t => PineconeMatch.mk (some t)))).1.data :=
  grounded_prompt_properties "What is EPF?" ["p1", "p2"] (by decide) (by decide)

/-- C5: for every non-empty trimmed question, when the match list is empty,
or no match carries a usable metadata text, prompt building yields the
fallback prompt, which contains the literal question, and the accompanying
`source_context` is the empty string. -/
theorem fallback_prompt_properties (user_query : String) (matchList : List PineconeMatch)
    (hq1 : user_query ≠ "") (hq2 : pyStrip user_query.data = user_query.data)
    (hempty : matchList.filterMap matchText = []) :
    get_final_prompt_for_llm user_query matchList
      = (create_fallback_prompt user_query, "") ∧
    user_query.data <:+: (create_fallback_prompt user_query).data := by
  constructor
  · unfold get_final_prompt_for_llm
    by_cases hm : matchList = []
    · rw [if_pos hm]
    · rw [if_neg hm, if_pos hempty]
  · unfold create_fallback_prompt
    rw [String.data_append, String.data_append]
    exact infixAppR (infixAppL (infixRfl user_query.data))

/-- C5, witness at a concrete input: the question `"What is EPF?"` with an
empty match list. -/
theorem fallback_prompt_properties_witness :
    get_final_prompt_for_llm "What is EPF?" []
      = (create_fallback_prompt "What is EPF?", "") ∧
    ("What is EPF?" : String).data <:+: (create_fallback_prompt "What is EPF?").data :=
  fallback_prompt_properties "What is EPF?" [] (by decide) (by decide) rfl

/-- C1: for every chat turn in which the retrieval stage raises
(`RetrievalError`), the turn still completes on the degraded path: the
generation client is invoked with the raw user question as the final
prompt, and the response returned to the caller has `success = true` and
`source_context` equal to the empty string. -/
theorem chat_retrieval_error_degraded (user_query user_id msg : String)
    (llm : String → Except String String) (save : SaveCall → Except String Unit) :
    (chat user_query user_id (Except.error msg) llm save).llmPrompt = user_query ∧
    (chat user_query user_id (Except.error msg) llm save).response.success = true ∧
    (chat user_query user_id (Except.error msg) llm save).response.source_context = "" :=
  ⟨rfl, rfl, rfl⟩

/-- C2: for every chat turn in which the generation stage raises, the
orchestrator substitutes the fixed "technical difficulties" apology as the
answer, does not re-raise (a normal response is returned), still attempts
to persist the interaction with that apology as the answer, and returns a
response with `success = true`. -/
theorem chat_generation_error_degraded (user_query user_id : String)
    (ragResult : Except String (String × String)) (msg : String)
    (llm : String → Except String String) (save : SaveCall → Except String Unit)
    (hllm : llm (resolvePrompt user_query ragResult).1 = Except.error msg) :
    (chat user_query user_id ragResult llm save).response.answer = techDifficulties ∧
    (chat user_query user_id ragResult llm save).response.success = true ∧
    (chat user_query user_id ragResult llm save).saveCalls
      = [{ user_id := user_id, user_query := user_query,
           bot_response := techDifficulties,
           context := (resolvePrompt user_query ragResult).2 }] := by
  refine ⟨?_, rfl, ?_⟩
  · show chatBotResponse llm (resolvePrompt user_query ragResult).1 = techDifficulties
    unfold chatBotResponse
    rw [hllm]
  · show [({ user_id := user_id, user_query := user_query,
             bot_response := chatBotResponse llm (resolvePrompt user_query ragResult).1,
             context := (resolvePrompt user_query ragResult).2 } : SaveCall)] = _
    unfold chatBotResponse
    rw [hllm]

/-- C2, witness at a concrete input: the RAG stage succeeds with prompt
`"P"` and context `"ctx"`, the generation stage fails with a timeout. -/
theorem chat_generation_error_degraded_witness :
    (chat "Q" "u" (Except.ok ("P", "ctx")) (fun _ => Except.error "Timeout")
        (fun _ => Except.ok ())).response.answer = techDifficulties ∧
    (chat "Q" "u" (Except.ok ("P", "ctx")) (fun _ => Except.error "Timeout")
        (fun _ => Except.ok ())).response.success = true ∧
    (chat "Q" "u" (Except.ok ("P", "ctx")) (fun _ => Except.error "Timeout")
        (fun _ => Except.ok ())).saveCalls
      = [{ user_id := "u", user_query := "Q", bot_response := techDifficulties,
           context := "ctx" }] :=
  chat_generation_error_degraded "Q" "u" (Except.ok ("P", "ctx")) "Timeout"
    (fun _ => Except.error "Timeout") (fun _ => Except.ok ()) rfl

/-- C3: every chat turn performs exactly one interaction write attempt; on
all three guarded paths the attempted row carries precisely the returned
answer and source context (so no error marker is substituted on them); and
the outcome of the persistence attempt never changes the response: two runs
differing only in the persistence function return the same response and
attempt the same write. -/
theorem chat_single_write_persistence_invariant (user_query user_id : String)
    (ragResult : Except String (String × String))
    (llm : String → Except String String)
    (save save' : SaveCall → Except String Unit) :
    (chat user_query user_id ragResult llm save).saveCalls
      = [{ user_id := user_id, user_query := user_query,
           bot_response := (chat user_query user_id ragResult llm save).response.answer,
           context :=
             (chat user_query user_id ragResult llm save).response.source_context }] ∧
    (chat user_query user_id ragResult llm save).saveCalls.length = 1 ∧
    (chat user_query user_id ragResult llm save).response.success = true ∧
    (chat user_query user_id ragResult llm save).response
      = (chat user_query user_id ragResult llm save').response :=
  ⟨rfl, rfl, rfl, rfl⟩

/-- C8, counterexample: the insert payload built by `save_chat_to_db` DOES
carry a client-side timestamp (`created_at` is present in the payload,
filled with the service's own `datetime.utcnow()`), so the stored
`created_at` is supplied by the client of the store, not assigned by the
persistence store as the claim states. -/
theorem save_chat_timestamp_counterexample :
    ((save_chat_to_db "user-1" "What is EPF?" "answer" (some "ctx")
        "2026-10-12T00:00:00").created_at).isSome = true := rfl

/-- C8, amended: the append operation's side effect is one new row whose
fields are exactly the given arguments and whose `created_at` is assigned
by the append operation itself — the current UTC time at call time, sent
inside the insert payload rather than left for the store to fill in. -/
theorem save_chat_row (user_id user_query bot_response : String)
    (context : Option String) (nowIso : String) :
    save_chat_to_db user_id user_query bot_response context nowIso
      = { user_id := user_id, user_message := user_query,
          bot_response := bot_response, source_context := context,
          created_at := some nowIso } := rfl

/-- C9, counterexample: a stored record dated one hour after the call time
`now = 1000000` (UTC midnight `950400`) is counted by the code's "recent"
filter (`1` below), yet it does not lie in the interval from 00:00 UTC of
the current date to `now` (`0` below) — the code has no upper bound at the
call time. -/
theorem stats_current_day_counterexample :
    (get_chat_statistics [{ user_id := "u", bot_response := "a", created_at := 1003600 }]
        1000000).recent_chats_24h = 1 ∧
    (([{ user_id := "u", bot_response := "a", created_at := 1003600 }] :
        List ChatRecord).filter
      (fun c => decide (inCurrentDaySpec c.created_at 1000000))).length = 0 := by
  constructor
  · decide
  · decide

/-- C9, amended: the statistics operation's current-day count tallies
exactly those records whose stored UTC timestamp is strictly later than
00:00 UTC of the current date (midnight-anchored, not a rolling 24-hour
window), with no upper bound at the call time, for every multiset of stored
records and every call time. -/
theorem stats_current_day_count (chats : List ChatRecord) (now : Nat) :
    (get_chat_statistics chats now).recent_chats_24h
      = (chats.filter (fun c => 86400 * (now / 86400) < c.created_at)).length := by
  have hmid : midnightOf now = 86400 * (now / 86400) := by
    unfold midnightOf
    omega
  show (chats.filter (fun c => midnightOf now < c.created_at)).length = _
  rw [hmid]
